import Mathlib

/-!
Verification development for the PEPit performance-estimation engine and its
example files (`no_lips_1.py`, `No_Lips_2.py`, `improved_interior_algorithm.py`).

Symbolic points, expressions, oracle bookkeeping and the solver-adapter
interface are embedded shallowly; the example algorithms' declaration traces
are re-executed symbolically over that embedding.
-/

namespace PEPit

/-- Symbolic point: an element of the abstract decision space.  `basis i` is
the i-th lazily allocated basis point, `grad fid p` is the gradient returned
by function `fid`'s oracle at `p`, and the remaining constructors are the
affine operations of the symbolic linear algebra (spec section 4.1). -/
inductive SPoint where
  | x0 : SPoint
  | xs : SPoint
  | basis (id : ℕ) : SPoint
  | grad (fid : ℕ) (p : SPoint) : SPoint
  | add (p q : SPoint) : SPoint
  | sub (p q : SPoint) : SPoint
  | smul (c : ℚ) (p : SPoint) : SPoint
deriving DecidableEq

/-- Symbolic scalar expression: function values, inner products of points,
and the affine operations on them (spec section 4.1). -/
inductive SExpr where
  | const (c : ℚ) : SExpr
  | fval (fid : ℕ) (p : SPoint) : SExpr
  | inner (p q : SPoint) : SExpr
  | add (e f : SExpr) : SExpr
  | sub (e f : SExpr) : SExpr
  | smul (c : ℚ) (e : SExpr) : SExpr
deriving DecidableEq

instance : Sub SPoint := ⟨SPoint.sub⟩
instance : Add SPoint := ⟨SPoint.add⟩
instance : Sub SExpr := ⟨SExpr.sub⟩
instance : Add SExpr := ⟨SExpr.add⟩

/-- Modelled from the spec: a declared function handle.  The engine's function
arithmetic (`func1 + func2`, `(d + func1) / L` in the examples) is missing from
src, so handles are the closure of declared atoms under sums and scalings, and
an oracle call on a combination acts linearly on the oracles of the atoms. -/
inductive FunHandle where
  | atom (fid : ℕ) : FunHandle
  | add (f g : FunHandle) : FunHandle
  | smul (c : ℚ) (f : FunHandle) : FunHandle
deriving DecidableEq

/-- Gradient part of the oracle of a (possibly combined) function handle. -/
def gradOf : FunHandle → SPoint → SPoint
  | .atom fid, p => .grad fid p
  | .add f g, p => .add (gradOf f p) (gradOf g p)
  | .smul c f, p => .smul c (gradOf f p)

/-- Value part of the oracle of a (possibly combined) function handle. -/
def valOf : FunHandle → SPoint → SExpr
  | .atom fid, p => .fval fid p
  | .add f g, p => .add (valOf f p) (valOf g p)
  | .smul c f, p => .smul c (valOf f p)

/-- Relation of a constraint (spec section 3). -/
inductive Rel where
  | le : Rel
  | eq : Rel
deriving DecidableEq

/-- Tag recording which rule produced a constraint (spec sections 3 and 4.2). -/
inductive Tag where
  | convexInterp (i j : ℕ) : Tag
  | smoothConvexInterp (i j : ℕ) : Tag
  | stronglyConvexInterp (i j : ℕ) : Tag
  | indicatorStationarity (i j : ℕ) : Tag
  | indicatorDiameter (i j : ℕ) : Tag
  | indicatorValueFix (i : ℕ) : Tag
  | stepStationarity : Tag
  | userConstraint : Tag
deriving DecidableEq

/-- Constraint: expression, relation, bound and provenance tag (spec section 3). -/
structure SConstraint where
  expr : SExpr
  rel : Rel
  bound : ℚ
  tag : Tag
deriving DecidableEq

/-- Oracle triple `(x, g, f)` recorded by a function instance (spec section 3). -/
structure OracleTriple where
  x : SPoint
  g : SPoint
  fv : SExpr
deriving DecidableEq

instance : Inhabited OracleTriple := ⟨⟨.x0, .x0, .const 0⟩⟩

/- ## Interpolation constraint generators (claims C1, C4) -/

/-- Every ordered pair `(i, j)` of distinct indices below `m`; self-pairs are
skipped (spec section 4.2). -/
def orderedPairs (m : ℕ) : List (ℕ × ℕ) :=
  (List.range m).flatMap fun i =>
    ((List.range m).filter fun j => j != i).map fun j => (i, j)

/-- Modelled from the spec: the interpolation generator of the `ConvexFunction`
class (spec section 4.2): for every ordered pair of distinct oracle triples,
`f_i ≥ f_j + ⟨g_j, x_i − x_j⟩`.  The class code is not under src. -/
def ConvexFunction.interpolate (ts : List OracleTriple) : List SConstraint :=
  (orderedPairs ts.length).map fun p =>
    ⟨(ts.getD p.2 default).fv
        + SExpr.inner (ts.getD p.2 default).g ((ts.getD p.1 default).x - (ts.getD p.2 default).x)
        - (ts.getD p.1 default).fv,
      Rel.le, 0, Tag.convexInterp p.1 p.2⟩

/-- Modelled from the spec: the interpolation generator of the
`SmoothConvexFunction` class (spec section 4.2):
`f_i ≥ f_j + ⟨g_j, x_i − x_j⟩ + (1/2L)‖g_i − g_j‖²`. -/
def SmoothConvexFunction.interpolate (L : ℚ) (ts : List OracleTriple) : List SConstraint :=
  (orderedPairs ts.length).map fun p =>
    ⟨(ts.getD p.2 default).fv
        + SExpr.inner (ts.getD p.2 default).g ((ts.getD p.1 default).x - (ts.getD p.2 default).x)
        + SExpr.smul (1 / (2 * L))
            (SExpr.inner ((ts.getD p.1 default).g - (ts.getD p.2 default).g)
              ((ts.getD p.1 default).g - (ts.getD p.2 default).g))
        - (ts.getD p.1 default).fv,
      Rel.le, 0, Tag.smoothConvexInterp p.1 p.2⟩

/-- Modelled from the spec: the interpolation generator of the
`StronglyConvexFunction` class (spec section 4.2):
`f_i ≥ f_j + ⟨g_j, x_i − x_j⟩ + (μ/2)‖x_i − x_j‖²`. -/
def StronglyConvexFunction.interpolate (mu : ℚ) (ts : List OracleTriple) : List SConstraint :=
  (orderedPairs ts.length).map fun p =>
    ⟨(ts.getD p.2 default).fv
        + SExpr.inner (ts.getD p.2 default).g ((ts.getD p.1 default).x - (ts.getD p.2 default).x)
        + SExpr.smul (mu / 2)
            (SExpr.inner ((ts.getD p.1 default).x - (ts.getD p.2 default).x)
              ((ts.getD p.1 default).x - (ts.getD p.2 default).x))
        - (ts.getD p.1 default).fv,
      Rel.le, 0, Tag.stronglyConvexInterp p.1 p.2⟩

/-- Modelled from the spec: the interpolation generator of the
`ConvexIndicatorFunction` class with domain diameter `D` (spec section 4.2):
for every ordered pair of distinct triples the stationarity inequality
`⟨g_j, x_i − x_j⟩ ≤ 0`, the diameter bound `‖x_i − x_j‖² ≤ D²` only when `D`
is finite (`D = np.inf` in the examples is represented by `none`), and for
every triple the value-fixing equality `f_i = 0`. -/
def ConvexIndicatorFunction.interpolate (D : Option ℚ) (ts : List OracleTriple) :
    List SConstraint :=
  ((orderedPairs ts.length).map fun p =>
    ⟨SExpr.inner (ts.getD p.2 default).g ((ts.getD p.1 default).x - (ts.getD p.2 default).x),
      Rel.le, 0, Tag.indicatorStationarity p.1 p.2⟩)
  ++ (match D with
      | some d =>
          (orderedPairs ts.length).map fun p =>
            ⟨SExpr.inner ((ts.getD p.1 default).x - (ts.getD p.2 default).x)
                ((ts.getD p.1 default).x - (ts.getD p.2 default).x),
              Rel.le, d * d, Tag.indicatorDiameter p.1 p.2⟩
      | none => [])
  ++ (List.range ts.length).map fun i =>
      ⟨(ts.getD i default).fv, Rel.eq, 0, Tag.indicatorValueFix i⟩

/-- Recognizes the diameter-bound tag. -/
def isDiameterTag : Tag → Bool
  | .indicatorDiameter _ _ => true
  | _ => false

/-- Recognizes the two constraint kinds the indicator class keeps when its
diameter is infinite: stationarity inequalities and value-fixing equalities. -/
def isIndicatorCoreTag : Tag → Bool
  | .indicatorStationarity _ _ => true
  | .indicatorValueFix _ => true
  | _ => false

/- ## Problem state and primitive steps (claims C6, C10) -/

/-- Declaration-time state of a problem: next fresh basis id, constraint
ledger, and the list of performance-metric expressions registered so far
(spec section 3, ProblemState). -/
structure PState where
  nextId : ℕ
  ledger : List SConstraint
  metrics : List SExpr
deriving DecidableEq

/-- Modelled from the spec: the `bregman_gradient_step` primitive step (spec
section 4.2, primitive algorithmic steps; the primitive-step code is not under
src).  Given the search direction `sx`, the current mirror gradient `mx`, the
mirror function handle and a step size, it allocates a fresh basis point `x`
for the step's output, appends the first-order stationarity condition
`∇mirror(x) = mx − γ·sx` (expressed through the mirror function's oracle at
`x`) to the ledger as an implicit-optimality constraint, and returns `x`
together with the mirror oracle's gradient and value at `x`. -/
def bregman_gradient_step (sx mx : SPoint) (mirror : FunHandle) (gamma : ℚ)
    (st : PState) : (SPoint × SPoint × SExpr) × PState :=
  let x := SPoint.basis st.nextId
  let resid := gradOf mirror x - (mx - SPoint.smul gamma sx)
  ((x, gradOf mirror x, valOf mirror x),
    { nextId := st.nextId + 1,
      ledger := st.ledger ++ [⟨SExpr.inner resid resid, Rel.eq, 0, Tag.stepStationarity⟩],
      metrics := st.metrics })

/-- Function handle of the first declared convex function `d` of the NoLips
examples. -/
def dFun : FunHandle := .atom 0

/-- Function handle of `func1` in the examples. -/
def func1 : FunHandle := .atom 1

/-- Function handle of `func2` (the convex indicator) in the examples. -/
def func2 : FunHandle := .atom 2

/-- The kernel `h = (d + func1) / L` of the NoLips examples. -/
def hFun (L : ℚ) : FunHandle := .smul (1 / L) (.add dFun func1)

/-- The objective `func = func1 + func2` of the NoLips examples. -/
def funcSum : FunHandle := .add func1 func2

/-- The mirror map `func2 + h` passed to the Bregman step in both NoLips
examples. -/
def mirrorFun (L : ℚ) : FunHandle := .add func2 (hFun L)

/-- The Bregman distance expression `h(a) − h(b) − ⟨∇h(b), a − b⟩` exactly as
`wc_no_lips2` assembles it from `h`'s oracle outputs. -/
def bregmanDist (L : ℚ) (a b : SPoint) : SExpr :=
  valOf (hFun L) a - valOf (hFun L) b - SExpr.inner (gradOf (hFun L) b) (a - b)

/-- Symbolic execution of the loop of `wc_no_lips2` (src file `No_Lips_2.py`,
lines 72-85).  The accumulator carries the source variables
`(x1, hx1, gfx, ghx)`; each iteration performs the Bregman step, queries
`func1` and `h` at the new point, forms `Dhx = hx1 - hx2 - ghx * (x1 - x2)`
and registers it as a performance metric. -/
def wcNoLips2Loop (L gamma : ℚ) :
    ℕ → SPoint × SExpr × SPoint × SPoint → PState → PState
  | 0, _, st => st
  | Nat.succ n, (x1, hx1, gfx, ghx), st =>
      let step := bregman_gradient_step gfx ghx (mirrorFun L) gamma st
      let x2 := step.1.1
      let gfx2 := gradOf func1 x2
      let ghx2 := gradOf (hFun L) x2
      let hx2 := valOf (hFun L) x2
      let Dhx := hx1 - hx2 - SExpr.inner ghx2 (x1 - x2)
      wcNoLips2Loop L gamma n (x2, hx2, gfx2, ghx2)
        { nextId := step.2.nextId,
          ledger := step.2.ledger,
          metrics := step.2.metrics ++ [Dhx] }

/-- Performance-metric expressions registered by `wc_no_lips2` with `n`
iterations, starting from a problem state whose next fresh basis id is `i0`
and whose metric list is empty.  The loop is entered with
`x1 = x0`, `hx1 = h0`, `gfx = gf0`, `ghx = gh0` (src lines 63-75). -/
def wcNoLips2Metrics (L gamma : ℚ) (n i0 : ℕ) : List SExpr :=
  (wcNoLips2Loop L gamma n
    (.x0, valOf (hFun L) .x0, gradOf func1 .x0, gradOf (hFun L) .x0)
    ⟨i0, [], []⟩).metrics

/-- Generalized chain of iterates used in the loop invariant: starts at an
arbitrary point `p`, subsequent iterates are the freshly allocated basis
points (ids starting at `i0`). -/
def chainFrom (i0 : ℕ) (p : SPoint) : ℕ → SPoint
  | 0 => p
  | Nat.succ k => .basis (i0 + k)

/-- The iterate points of `wc_no_lips2`: iterate 0 is the initial point `x0`,
iterate `k+1` is the fresh basis point allocated by the `k`-th Bregman step
(ids start at `i0`). -/
def l2chain (i0 : ℕ) : ℕ → SPoint := chainFrom i0 SPoint.x0

/-- Symbolic execution of the loop of `wc_no_lips1` (src file `no_lips_1.py`,
lines 115-120).  The accumulator carries `(gfx, ffx, ghx)`; each iteration
performs the Bregman step (which updates `ghx`) and queries
`func = func1 + func2` at the new point.  No performance metric is set inside
the loop. -/
def wcNoLips1Loop (L gamma : ℚ) :
    ℕ → SPoint × SExpr × SPoint → PState → (SPoint × SExpr × SPoint) × PState
  | 0, acc, st => (acc, st)
  | Nat.succ n, (gfx, ffx, ghx), st =>
      let step := bregman_gradient_step gfx ghx (mirrorFun L) gamma st
      let x := step.1.1
      let ghx2 := step.1.2.1
      wcNoLips1Loop L gamma n (gradOf funcSum x, valOf funcSum x, ghx2) step.2

/-- Performance-metric expressions registered by `wc_no_lips1` with `n`
iterations: the loop registers none, and a single metric `ffx - fs` is set
after the loop (src lines 122-123), with `fs` the value of `func1`'s oracle at
the stationary point `xs` (src line 104). -/
def wcNoLips1Metrics (L gamma : ℚ) (n i0 : ℕ) : List SExpr :=
  (wcNoLips1Loop L gamma n
    (gradOf func1 .x0, valOf func1 .x0, gradOf (hFun L) .x0) ⟨i0, [], []⟩).2.metrics
  ++ [(wcNoLips1Loop L gamma n
    (gradOf func1 .x0, valOf func1 .x0, gradOf (hFun L) .x0) ⟨i0, [], []⟩).1.2.1
      - valOf func1 .xs]

/- ## Numeric pieces of the examples (claims C2, C9) -/

/-- The theoretical rate computed by `wc_no_lips1` (src line 129):
`1 / (gamma * n)`. -/
def theoretical_tau_noLips1 (gamma : ℚ) (n : ℕ) : ℚ := 1 / (gamma * n)

/-- The primal optimal value recorded in the doctest of `wc_no_lips1` for
`L = 1`, `gamma = 1/2`, `n = 3` (src line 80): the solver reports
`0.6666452858806611`. -/
def pepit_tau_noLips1_doc : ℚ := 6666452858806611 / 10000000000000000

/-- Python true division, which raises `ZeroDivisionError` on a zero
denominator: embedded as an `Option`, `none` marking the raised exception. -/
def pydiv (a b : ℚ) : Option ℚ :=
  if b = 0 then none else some (a / b)

/-- The theoretical rate computed by `wc_no_lips2` after `solve` returns
(src file `No_Lips_2.py`, line 91): `2 / (n - 1) / n`, evaluated left to
right with Python division. -/
def theoretical_tau_noLips2 (n : ℤ) : Option ℚ :=
  (pydiv 2 ((n : ℚ) - 1)).bind fun t => pydiv t (n : ℚ)

/-- The value returned by `wc_no_lips2` once `solve` has succeeded with primal
optimum `pepit_tau` (src lines 88-100): the pair `(pepit_tau,
theoretical_tau)`, or `none` when the theoretical-rate computation raises. -/
def wcNoLips2Return (L gamma : ℚ) (n : ℤ) (pepit_tau : ℚ) : Option (ℚ × ℚ) :=
  (theoretical_tau_noLips2 n).map fun t => (pepit_tau, t)

/- ## Basis registry with memoized oracle calls (claim C3) -/

/-- Modelled from the spec: the basis registry with the memoized cache of
`(function, point-id) → (gradient, value)` (spec sections 2.1, 3 and design
note on lazy global basis growth); the registry code itself is not under src. -/
structure Registry where
  nextId : ℕ
  basisCount : ℕ
  cache : List ((ℕ × ℕ) × (ℕ × ℕ))
deriving DecidableEq

/-- Modelled from the spec: an oracle call on function `fid` at the point with
id `pid`.  On a cache hit the previously created `(gradient, value)` pair is
returned unchanged; otherwise two fresh basis vectors are allocated and the
cache is extended. -/
def Registry.oracle (r : Registry) (fid pid : ℕ) : (ℕ × ℕ) × Registry :=
  match r.cache.lookup (fid, pid) with
  | some gv => (gv, r)
  | none =>
      ((r.nextId, r.nextId + 1),
        { nextId := r.nextId + 2,
          basisCount := r.basisCount + 2,
          cache := ((fid, pid), (r.nextId, r.nextId + 1)) :: r.cache })

/- ## Canonicalized bilinear terms and the lowered Gram matrix (claim C8) -/

/-- Canonical unordered-pair key: smaller basis id first (spec section 3). -/
def canonPair (i j : ℕ) : ℕ × ℕ := if i ≤ j then (i, j) else (j, i)

/-- Modelled from the spec: the bilinear coefficients produced by
`innerProduct` on two points given as coefficient vectors over basis ids.
The coefficient of `⟨a,b⟩` and of `⟨b,a⟩` is stored once, on the canonical
key, with the two contributions summed (spec sections 3 and 4.1). -/
def innerPairCoeff (a b : ℕ → ℚ) : ℕ × ℕ → ℚ := fun p =>
  if p.1 < p.2 then a p.1 * b p.2 + a p.2 * b p.1
  else if p.1 = p.2 then a p.1 * b p.1
  else 0

/-- Modelled from the spec: an Expression of the symbolic algebra, restricted
to its bilinear part — the closure of `innerProduct` under `add` and `scale`
(spec section 4.1). -/
inductive GExpr where
  | inner (a b : ℕ → ℚ) : GExpr
  | add (e f : GExpr) : GExpr
  | smul (c : ℚ) (e : GExpr) : GExpr

/-- Bilinear coefficient map of an expression of the symbolic algebra. -/
def GExpr.pairCoeff : GExpr → (ℕ × ℕ → ℚ)
  | .inner a b => innerPairCoeff a b
  | .add e f => fun p => e.pairCoeff p + f.pairCoeff p
  | .smul c e => fun p => c * e.pairCoeff p

/-- Modelled from the spec: the Gram-matrix form of an expression assembled by
`solve` (spec section 4.3, step 3): the canonical-pair coefficient is split
over the two symmetric entries. -/
def gramOf (e : GExpr) : ℕ → ℕ → ℚ := fun i j =>
  if i = j then e.pairCoeff (i, i) else e.pairCoeff (canonPair i j) / 2

/- ## Solver adapter, failure mapping and certification (claims C5, C7) -/

/-- Terminal status reported by the external solver adapter (spec section 6). -/
inductive SolverStatus where
  | optimal : SolverStatus
  | infeasible : SolverStatus
  | unbounded : SolverStatus
  | error : SolverStatus
deriving DecidableEq

/-- Output of one adapter invocation: status, primal value, and the two
certification diagnostics computed from its dual output (spec section 4.4). -/
structure AdapterResult where
  status : SolverStatus
  primalValue : ℚ
  reconstructionError : ℚ
  dualityGap : ℚ
deriving DecidableEq

/-- Errors surfaced by `solve` (spec section 7). -/
inductive PEPError where
  | infeasibleError : PEPError
  | solverFailure : PEPError
deriving DecidableEq

/-- Non-fatal diagnostics attached to a solve result (spec section 7). -/
inductive PEPWarning where
  | certificationWarning : PEPWarning
deriving DecidableEq

/-- Result of a successful solve: primal optimum and attached warnings. -/
structure SolveResult where
  tau : ℚ
  warnings : List PEPWarning
deriving DecidableEq

/-- Modelled from the spec: the certifier's verdict (spec section 4.4).  When
reconstruction error or duality gap exceeds the configured tolerance a
`certificationWarning` is produced; otherwise no warning. -/
def certificationWarnings (tol : ℚ) (a : AdapterResult) : List PEPWarning :=
  if a.reconstructionError ≤ tol ∧ a.dualityGap ≤ tol then []
  else [PEPWarning.certificationWarning]

/-- Modelled from the spec: `solve`'s terminal behavior (spec sections 4.3,
4.4 and 7), given the adapter's result.  Optimal status yields the primal
optimum with certification run as a diagnostic; infeasible or unbounded yields
`infeasibleError`; any other non-optimal terminal status yields
`solverFailure`.  The solve code itself is not under src. -/
def solvePEP (tol : ℚ) (a : AdapterResult) : Except PEPError SolveResult :=
  match a.status with
  | .optimal => .ok ⟨a.primalValue, certificationWarnings tol a⟩
  | .infeasible => .error .infeasibleError
  | .unbounded => .error .infeasibleError
  | .error => .error .solverFailure

/-- Modelled from the spec: `solve` performs a single blocking dispatch to the
adapter, with no automatic retry (spec sections 5 and 7).  The second component
counts adapter invocations. -/
def solveCallingAdapter (tol : ℚ) (adapter : ℕ → AdapterResult) :
    Except PEPError SolveResult × ℕ :=
  (solvePEP tol (adapter 0), 1)

/-- Two concrete oracle triples of a convex indicator function (function id 2),
recorded at the stationary point and at the first fresh basis point. -/
def exIndicatorTriples : List OracleTriple :=
  [⟨.x0, .grad 2 .x0, .fval 2 .x0⟩,
   ⟨.basis 0, .grad 2 (.basis 0), .fval 2 (.basis 0)⟩]

/- ## Counting lemmas for the interpolation generators -/

theorem filter_ne_range_length (m i : ℕ) (h : i < m) :
    ((List.range m).filter fun j => j != i).length = m - 1 := by
  induction m with
  | zero => omega
  | succ m ih =>
    rw [List.range_succ, List.filter_append, List.length_append]
    by_cases hi : i = m
    · subst hi
      have h1 : (List.range i).filter (fun j => j != i) = List.range i :=
        List.filter_eq_self.mpr (by
          intro a ha
          have hlt : a < i := List.mem_range.mp ha
          simp [bne_iff_ne]
          omega)
      simp [h1]
    · have h2 : i < m := by omega
      rw [ih h2]
      have h3 : ([m].filter fun j => j != i) = [m] := by
        simp [bne_iff_ne]
        omega
      rw [h3]
      simp
      omega

theorem orderedPairs_length (m : ℕ) : (orderedPairs m).length = m * (m - 1) := by
  unfold orderedPairs
  rw [List.length_flatMap]
  have hmap : List.map
      (List.length ∘ fun i => ((List.range m).filter fun j => j != i).map fun j => (i, j))
      (List.range m) = List.map (fun _ => m - 1) (List.range m) := by
    apply List.map_congr_left
    intro a ha
    simp only [Function.comp_apply, List.length_map]
    exact filter_ne_range_length m a (List.mem_range.mp ha)
  rw [hmap, show (fun _ : ℕ => m - 1) = Function.const ℕ (m - 1) from rfl,
    List.map_const, List.sum_replicate, List.length_range, smul_eq_mul]

/- ## Claim theorems -/

/-- Claim C1, counterexample: on a convex indicator function with infinite
diameter holding `m = 2` distinct oracle triples, the interpolation generator
produces 4 constraints, not `m(m−1) = 2`: the value-fixing equalities are
generated in addition to the ordered-pair stationarity inequalities, so the
claim's count is wrong for the convex indicator class. -/
theorem indicator_count_not_m_times_m_minus_one :
    (ConvexIndicatorFunction.interpolate none exIndicatorTriples).length
      ≠ exIndicatorTriples.length * (exIndicatorTriples.length - 1) := by
  decide

/-- Claim C1, amended: for the convex, smooth-convex and strongly convex
classes the generator produces exactly `m(m−1)` constraints (one per ordered
pair of distinct oracle triples, self-pairs skipped); the convex indicator
class additionally produces one value-fixing equality per oracle triple, hence
`m(m−1) + m = m²` constraints when its diameter is infinite (and `m(m−1)`
further diameter bounds when the diameter is finite).  This matches the
doctest counts in the src examples (`m = 7` gives 49 for the indicator and
42 for the other classes). -/
theorem interpolation_constraint_counts (ts : List OracleTriple) (L mu d : ℚ) :
    (ConvexFunction.interpolate ts).length = ts.length * (ts.length - 1)
    ∧ (SmoothConvexFunction.interpolate L ts).length = ts.length * (ts.length - 1)
    ∧ (StronglyConvexFunction.interpolate mu ts).length = ts.length * (ts.length - 1)
    ∧ (ConvexIndicatorFunction.interpolate none ts).length = ts.length * ts.length
    ∧ (ConvexIndicatorFunction.interpolate (some d) ts).length
        = 2 * (ts.length * (ts.length - 1)) + ts.length := by
  refine ⟨?_, ?_, ?_, ?_, ?_⟩
  · rw [ConvexFunction.interpolate, List.length_map, orderedPairs_length]
  · rw [SmoothConvexFunction.interpolate, List.length_map, orderedPairs_length]
  · rw [StronglyConvexFunction.interpolate, List.length_map, orderedPairs_length]
  · rw [ConvexIndicatorFunction.interpolate]
    simp only [List.length_append, List.length_map, List.length_range,
      List.nil_append, orderedPairs_length]
    cases ts.length with
    | zero => rfl
    | succ m => simp [Nat.succ_sub_one]; ring
  · rw [ConvexIndicatorFunction.interpolate]
    simp only [List.length_append, List.length_map, List.length_range,
      orderedPairs_length]
    ring

/-- Claim C4: a convex indicator function declared with infinite domain
diameter generates no diameter constraint at all: its interpolation output
contains only stationarity inequalities and value-fixing equalities. -/
theorem indicator_infinite_diameter_no_diameter_constraint (ts : List OracleTriple) :
    ((ConvexIndicatorFunction.interpolate none ts).filter fun c => isDiameterTag c.tag) = []
    ∧ ((ConvexIndicatorFunction.interpolate none ts).all fun c => isIndicatorCoreTag c.tag)
        = true := by
  constructor
  · rw [List.filter_eq_nil_iff]
    intro c hc
    simp only [ConvexIndicatorFunction.interpolate, List.append_nil, List.nil_append,
      List.mem_append, List.mem_map] at hc
    rcases hc with ⟨p, _, rfl⟩ | ⟨i, _, rfl⟩ <;> simp [isDiameterTag]
  · rw [List.all_eq_true]
    intro c hc
    simp only [ConvexIndicatorFunction.interpolate, List.append_nil, List.nil_append,
      List.mem_append, List.mem_map] at hc
    rcases hc with ⟨p, _, rfl⟩ | ⟨i, _, rfl⟩ <;> simp [isIndicatorCoreTag]

/-- Claim C3: an oracle call on a `(function, point)` pair that has already
been queried returns the previously created `(gradient, value)` pair and
leaves the registry — in particular the basis size — unchanged, so repeated
oracle queries never allocate a second pair of basis vectors. -/
theorem oracle_memoized (r : Registry) (fid pid : ℕ) :
    (r.oracle fid pid).2.oracle fid pid = r.oracle fid pid
    ∧ ((r.oracle fid pid).2.oracle fid pid).2.basisCount
        = (r.oracle fid pid).2.basisCount := by
  have key : (r.oracle fid pid).2.oracle fid pid = r.oracle fid pid := by
    unfold Registry.oracle
    cases h : r.cache.lookup (fid, pid) with
    | some gv => simp [h]
    | none => simp [h, List.lookup_cons]
  exact ⟨key, by rw [key]⟩

theorem canonPair_comm (i j : ℕ) : canonPair i j = canonPair j i := by
  unfold canonPair
  by_cases h1 : i ≤ j <;> by_cases h2 : j ≤ i <;> simp [h1, h2]
  · omega
  · omega

theorem pairCoeff_canonical (e : GExpr) (i j : ℕ) (h : ¬ i ≤ j) :
    e.pairCoeff (i, j) = 0 := by
  induction e with
  | inner a b =>
    simp only [GExpr.pairCoeff, innerPairCoeff]
    have h1 : ¬ i < j := by omega
    have h2 : ¬ i = j := by omega
    simp [h1, h2]
  | add e f ihe ihf => simp [GExpr.pairCoeff, ihe, ihf]
  | smul c e ihe => simp [GExpr.pairCoeff, ihe]

/-- Claim C8: bilinear pair keys are canonicalized — `⟨a,b⟩` and `⟨b,a⟩`
produce identical coefficient maps, every expression built by the symbolic
algebra carries coefficients only on canonical (smaller-id-first) keys, and
the Gram-matrix form lowered from any such expression is symmetric. -/
theorem gram_symmetric (e : GExpr) (a b : ℕ → ℚ) (i j : ℕ) :
    (GExpr.inner a b).pairCoeff = (GExpr.inner b a).pairCoeff
    ∧ e.pairCoeff (i, j) = (if i ≤ j then e.pairCoeff (i, j) else 0)
    ∧ gramOf e i j = gramOf e j i := by
  refine ⟨?_, ?_, ?_⟩
  · funext p
    simp only [GExpr.pairCoeff, innerPairCoeff]
    by_cases h1 : p.1 < p.2 <;> by_cases h2 : p.1 = p.2 <;> simp [h1, h2] <;> ring
  · by_cases h : i ≤ j
    · simp [h]
    · simp [h, pairCoeff_canonical e i j h]
  · unfold gramOf
    by_cases h : i = j
    · simp [h]
    · have h2 : ¬ j = i := fun hji => h hji.symm
      simp [h, h2, canonPair_comm i j]

/-- Claim C5: certification failure never aborts `solve`.  Whenever the
adapter reports an optimal status and the reconstruction error or the duality
gap exceeds the configured tolerance, `solve` still returns the primal
optimum, with a `certificationWarning` attached to the result. -/
theorem certification_failure_nonfatal (tol : ℚ) (a : AdapterResult)
    (hopt : a.status = SolverStatus.optimal)
    (hfail : tol < a.reconstructionError ∨ tol < a.dualityGap) :
    solvePEP tol a
      = Except.ok ⟨a.primalValue, [PEPWarning.certificationWarning]⟩ := by
  have hno : ¬ (a.reconstructionError ≤ tol ∧ a.dualityGap ≤ tol) := by
    rcases hfail with h | h
    · exact fun hc => absurd hc.1 (not_le.mpr h)
    · exact fun hc => absurd hc.2 (not_le.mpr h)
  simp [solvePEP, hopt, certificationWarnings, hno]

/-- Witness for claim C5 at a concrete adapter result exceeding the
tolerance. -/
theorem certification_failure_nonfatal_witness :
    (AdapterResult.mk SolverStatus.optimal 1 1 0).status = SolverStatus.optimal
    ∧ ((1 : ℚ)/1000000 < (AdapterResult.mk SolverStatus.optimal 1 1 0).reconstructionError
        ∨ (1 : ℚ)/1000000 < (AdapterResult.mk SolverStatus.optimal 1 1 0).dualityGap)
    ∧ solvePEP ((1 : ℚ)/1000000) (AdapterResult.mk SolverStatus.optimal 1 1 0)
        = Except.ok ⟨1, [PEPWarning.certificationWarning]⟩ :=
  ⟨rfl, Or.inl (by norm_num),
    certification_failure_nonfatal ((1 : ℚ)/1000000)
      (AdapterResult.mk SolverStatus.optimal 1 1 0) rfl (Or.inl (by norm_num))⟩

/-- Claim C7: `solve` fails with `infeasibleError` exactly when the adapter
reports an infeasible or unbounded status, fails with `solverFailure` exactly
when the adapter reports the remaining non-optimal terminal status, and the
adapter is invoked exactly once — no automatic retry. -/
theorem solver_status_error_mapping (tol : ℚ) (a : AdapterResult)
    (adapter : ℕ → AdapterResult) :
    (solvePEP tol a = Except.error PEPError.infeasibleError
        ↔ a.status = SolverStatus.infeasible ∨ a.status = SolverStatus.unbounded)
    ∧ (solvePEP tol a = Except.error PEPError.solverFailure
        ↔ a.status = SolverStatus.error)
    ∧ (solveCallingAdapter tol adapter).2 = 1 := by
  refine ⟨?_, ?_, rfl⟩ <;> cases h : a.status <;> simp [solvePEP, h]

/-- Claim C6: the Bregman gradient step allocates a fresh basis point for its
output (the next unallocated id, which is then consumed), appends to the
ledger exactly one implicit-optimality equality constraint — the first-order
stationarity condition `∇mirror(x) = mx − γ·sx`, expressed through the mirror
function's oracle gradient at the new point — and computes no closed-form
value for the output. -/
theorem bregman_step_fresh_and_constrained (sx mx : SPoint) (mirror : FunHandle)
    (gamma : ℚ) (st : PState) :
    (bregman_gradient_step sx mx mirror gamma st).1.1 = SPoint.basis st.nextId
    ∧ (bregman_gradient_step sx mx mirror gamma st).2.nextId = st.nextId + 1
    ∧ (bregman_gradient_step sx mx mirror gamma st).2.ledger
        = st.ledger ++ [⟨SExpr.inner
            (gradOf mirror (SPoint.basis st.nextId) - (mx - SPoint.smul gamma sx))
            (gradOf mirror (SPoint.basis st.nextId) - (mx - SPoint.smul gamma sx)),
          Rel.eq, 0, Tag.stepStationarity⟩]
    ∧ (bregman_gradient_step sx mx mirror gamma st).2.metrics = st.metrics :=
  ⟨rfl, rfl, rfl, rfl⟩

/-- Claim C2: in the concrete scenario `L = 1`, `gamma = 1/(2L)`, `n = 3` of
`wc_no_lips1`, the primal optimum recorded by the solver is within `1e-4` of
the theoretical bound `1/(gamma*n) = 2/3 ≈ 0.6667`, and the returned
`theoretical_tau` equals `1/(gamma*n)`. -/
theorem wc_no_lips1_concrete_value :
    |pepit_tau_noLips1_doc - theoretical_tau_noLips1 (1/2) 3| < 1/10000
    ∧ theoretical_tau_noLips1 (1/2) 3 = 2/3
    ∧ |pepit_tau_noLips1_doc - 6667/10000| < 1/10000 := by
  refine ⟨?_, ?_, ?_⟩ <;>
    norm_num [pepit_tau_noLips1_doc, theoretical_tau_noLips1, abs_lt]

/-- Claim C9: with `n = 1` (any `L`, `gamma`, and any primal optimum returned
by `solve`), `wc_no_lips2` never returns a tuple: the theoretical-rate
computation `2 / (n - 1) / n` divides by zero, raising `ZeroDivisionError`
(`none` in this embedding). -/
theorem wc_no_lips2_zero_division (L gamma pepit_tau : ℚ) :
    wcNoLips2Return L gamma 1 pepit_tau = none := by
  simp [wcNoLips2Return, theoretical_tau_noLips2, pydiv]

/- ## Loop invariants for the performance-metric traces (claim C10) -/

theorem chainFrom_succ (i0 : ℕ) (p : SPoint) (k : ℕ) :
    chainFrom i0 p (k + 1) = chainFrom (i0 + 1) (SPoint.basis i0) k := by
  cases k with
  | zero => simp [chainFrom]
  | succ k =>
    simp only [chainFrom]
    congr 1
    omega

theorem wcNoLips2Loop_succ (L gamma : ℚ) (n : ℕ) (x1 : SPoint) (hx1 : SExpr)
    (gfx ghx : SPoint) (st : PState) :
    wcNoLips2Loop L gamma (n + 1) (x1, hx1, gfx, ghx) st
      = wcNoLips2Loop L gamma n
          (SPoint.basis st.nextId,
           valOf (hFun L) (SPoint.basis st.nextId),
           gradOf func1 (SPoint.basis st.nextId),
           gradOf (hFun L) (SPoint.basis st.nextId))
          { nextId := st.nextId + 1,
            ledger := st.ledger ++ [⟨SExpr.inner
              (gradOf (mirrorFun L) (SPoint.basis st.nextId) - (ghx - SPoint.smul gamma gfx))
              (gradOf (mirrorFun L) (SPoint.basis st.nextId) - (ghx - SPoint.smul gamma gfx)),
              Rel.eq, 0, Tag.stepStationarity⟩],
            metrics := st.metrics ++ [hx1 - valOf (hFun L) (SPoint.basis st.nextId)
              - SExpr.inner (gradOf (hFun L) (SPoint.basis st.nextId))
                  (x1 - SPoint.basis st.nextId)] } := rfl

theorem wcNoLips2Loop_metrics (L gamma : ℚ) (n : ℕ) :
    ∀ (x1 gfx ghx : SPoint) (st : PState),
      (wcNoLips2Loop L gamma n (x1, valOf (hFun L) x1, gfx, ghx) st).metrics
        = st.metrics ++ (List.range n).map
            (fun k => bregmanDist L (chainFrom st.nextId x1 k) (chainFrom st.nextId x1 (k + 1))) := by
  induction n with
  | zero =>
    intro x1 gfx ghx st
    simp [wcNoLips2Loop]
  | succ n ih =>
    intro x1 gfx ghx st
    rw [wcNoLips2Loop_succ, ih]
    simp only [List.range_succ_eq_map, List.map_cons, List.map_map]
    have hfun : ((fun k => bregmanDist L (chainFrom st.nextId x1 k)
            (chainFrom st.nextId x1 (k + 1))) ∘ Nat.succ)
        = fun k => bregmanDist L (chainFrom (st.nextId + 1) (SPoint.basis st.nextId) k)
            (chainFrom (st.nextId + 1) (SPoint.basis st.nextId) (k + 1)) := by
      funext k
      simp only [Function.comp_apply]
      rw [show k.succ = k + 1 from rfl, chainFrom_succ, show k + 1 + 1 = (k + 1) + 1 from rfl,
        chainFrom_succ]
    rw [hfun]
    simp [bregmanDist, chainFrom, List.append_assoc]

theorem wcNoLips1Loop_succ (L gamma : ℚ) (n : ℕ) (gfx : SPoint) (ffx : SExpr)
    (ghx : SPoint) (st : PState) :
    wcNoLips1Loop L gamma (n + 1) (gfx, ffx, ghx) st
      = wcNoLips1Loop L gamma n
          (gradOf funcSum (SPoint.basis st.nextId),
           valOf funcSum (SPoint.basis st.nextId),
           gradOf (mirrorFun L) (SPoint.basis st.nextId))
          { nextId := st.nextId + 1,
            ledger := st.ledger ++ [⟨SExpr.inner
              (gradOf (mirrorFun L) (SPoint.basis st.nextId) - (ghx - SPoint.smul gamma gfx))
              (gradOf (mirrorFun L) (SPoint.basis st.nextId) - (ghx - SPoint.smul gamma gfx)),
              Rel.eq, 0, Tag.stepStationarity⟩],
            metrics := st.metrics } := rfl

theorem wcNoLips1Loop_metrics (L gamma : ℚ) (n : ℕ) :
    ∀ (acc : SPoint × SExpr × SPoint) (st : PState),
      (wcNoLips1Loop L gamma n acc st).2.metrics = st.metrics := by
  induction n with
  | zero => intro acc st; rfl
  | succ n ih =>
    intro acc st
    obtain ⟨gfx, ffx, ghx⟩ := acc
    rw [wcNoLips1Loop_succ, ih]

theorem wcNoLips1Loop_ffx (L gamma : ℚ) (m : ℕ) :
    ∀ (acc : SPoint × SExpr × SPoint) (st : PState),
      (wcNoLips1Loop L gamma (m + 1) acc st).1.2.1
        = valOf funcSum (SPoint.basis (st.nextId + m)) := by
  induction m with
  | zero =>
    intro acc st
    obtain ⟨gfx, ffx, ghx⟩ := acc
    rw [wcNoLips1Loop_succ]
    simp [wcNoLips1Loop]
  | succ k ih =>
    intro acc st
    obtain ⟨gfx, ffx, ghx⟩ := acc
    rw [wcNoLips1Loop_succ, ih]
    have hidx : st.nextId + 1 + k = st.nextId + (k + 1) := by omega
    simp [hidx]

/-- Claim C10: for every `n ≥ 1`, `wc_no_lips2` registers exactly `n`
performance metrics, one per loop iteration, the `k`-th being the Bregman
distance `h(x_k) − h(x_{k+1}) − ⟨∇h(x_{k+1}), x_k − x_{k+1}⟩` between the two
most recent iterates; `wc_no_lips1` registers exactly one metric, after its
loop, the final function-value gap `F(x_n) − f_1(x_*)` (with `f_2(x_*)` fixed
to zero by the indicator's value constraints). -/
theorem performance_metric_traces (L gamma : ℚ) (n i0 : ℕ) (hn : 1 ≤ n) :
    (wcNoLips2Metrics L gamma n i0).length = n
    ∧ (∀ k, k < n → (wcNoLips2Metrics L gamma n i0)[k]?
        = some (bregmanDist L (l2chain i0 k) (l2chain i0 (k + 1))))
    ∧ wcNoLips1Metrics L gamma n i0
        = [valOf funcSum (SPoint.basis (i0 + n - 1)) - valOf func1 SPoint.xs]
    ∧ (wcNoLips1Metrics L gamma n i0).length = 1 := by
  have h2 : wcNoLips2Metrics L gamma n i0
      = (List.range n).map
          (fun k => bregmanDist L (l2chain i0 k) (l2chain i0 (k + 1))) := by
    unfold wcNoLips2Metrics
    rw [wcNoLips2Loop_metrics]
    simp [l2chain]
  have h1 : wcNoLips1Metrics L gamma n i0
      = [valOf funcSum (SPoint.basis (i0 + n - 1)) - valOf func1 SPoint.xs] := by
    unfold wcNoLips1Metrics
    obtain ⟨m, rfl⟩ : ∃ m, n = m + 1 := ⟨n - 1, by omega⟩
    rw [wcNoLips1Loop_metrics, wcNoLips1Loop_ffx]
    simp
  refine ⟨?_, ?_, h1, by rw [h1]; rfl⟩
  · rw [h2, List.length_map, List.length_range]
  · intro k hk
    rw [h2, List.getElem?_map, List.getElem?_range hk]
    rfl

/-- Witness for claim C10 at the doctest parameters `L = 1`, `gamma = 1/2`,
`n = 3`, with basis ids starting at 0. -/
theorem performance_metric_traces_witness :
    1 ≤ 3
    ∧ ((wcNoLips2Metrics 1 (1/2) 3 0).length = 3
      ∧ (∀ k, k < 3 → (wcNoLips2Metrics 1 (1/2) 3 0)[k]?
          = some (bregmanDist 1 (l2chain 0 k) (l2chain 0 (k + 1))))
      ∧ wcNoLips1Metrics 1 (1/2) 3 0
          = [valOf funcSum (SPoint.basis 2) - valOf func1 SPoint.xs]
      ∧ (wcNoLips1Metrics 1 (1/2) 3 0).length = 1) :=
  ⟨by decide, performance_metric_traces 1 (1/2) 3 0 (by decide)⟩

end PEPit
